import Mathlib

/-!
Shallow embedding of the koblas/cedar-go authorization engine (the `engine`
package: `engine/value.go`, `engine/store.go`, `engine/interface.go`, the
evaluator file, and the `core/ast` extension-function table) together with
theorems settling the frozen claims about it.

Conventions of the embedding:

* Go functions returning `(value, error)` are modelled by `Res α`, which has a
  third outcome `crash` for Go runtime panics (integer division by zero,
  out-of-range indexing, dispatch on a nil interface value).
* Go `int` is modelled as unbounded `Int`.  No claim exercises 64-bit overflow
  and the specification leaves overflow behaviour undefined, so two's
  complement wrap-around is not modelled.  Go's truncated division and
  remainder correspond to `Int.tdiv` and `Int.tmod`.
* Source positions, tracing output and annotations are carried by the Go code
  purely for diagnostics and are omitted; error values keep their kind and
  message text but not positions.
* Go maps with `string` keys are modelled as association lists that are kept
  canonical (no duplicate keys) by an insert-with-overwrite operation.
-/

namespace CedarGo

/-- Evaluation error kinds, mirroring the sentinel errors of the engine
(`ErrTypeMismatch`, `ErrEvalError`, `ErrValueNotFound`, `ErrUnsupportedType`)
and Go error wrapping (`fmt.Errorf ... %w`) and joining (`errors.Join`). -/
inductive GoError where
  | typeMismatch (expected got : String)
  | evalErr (msg : String)
  | valueNotFound
  | unsupportedType (got : String)
  | wrapped (msg : String) (inner : GoError)
  | joined (es : List GoError)

/-- Mirrors `errors.Is(err, ErrValueNotFound)`: unwraps `%w` chains and the
members of `errors.Join`. -/
def GoError.isValueNotFound : GoError → Bool
  | .valueNotFound => true
  | .wrapped _ inner => inner.isValueNotFound
  | .joined es => go es
  | _ => false
where
  go : List GoError → Bool
    | [] => false
    | e :: rest => e.isValueNotFound || go rest

/-- Outcome of a Go computation: a value, a returned error, or a runtime
panic (`crash`). -/
inductive Res (α : Type) where
  | ok (v : α)
  | err (e : GoError)
  | crash

/-- Sequencing of Go results: errors and panics propagate. -/
def Res.bind {α β : Type} : Res α → (α → Res β) → Res β
  | .ok v, f => f v
  | .err e, _ => .err e
  | .crash, _ => .crash

/-- True when the result is a returned (non-panic) error. -/
def Res.isErr {α : Type} : Res α → Bool
  | .err _ => true
  | _ => false

/-- True when the result is a successfully returned value. -/
def Res.isOk {α : Type} : Res α → Bool
  | .ok _ => true
  | _ => false

/-- Runtime values of the engine (`engine/value.go`): `BoolValue`, `IntValue`,
`StrValue`, `EntityValue` (a `[]string` of type-path components followed by
the id), `SetValue`, `*VarValue` (records), `IdentifierValue`, and the
extension type `*IpValue` from the `core/ast` package (address bytes plus an
optional CIDR of network bytes and mask length).  The `DecimalValue` extension
(an IEEE-754 double) is not embedded; no claim concerns it. -/
inductive Value where
  | bool (b : Bool)
  | int (n : Int)
  | str (s : String)
  | entity (parts : List String)
  | set (elems : List Value)
  | record (pairs : List (String × Value))
  | ident (s : String)
  | ip (addr : List Nat) (cidr : Option (List Nat × Nat))

/-- `TypeName()` of each value variant.  `IdentifierValue.TypeName` really
does return "set" in the source. -/
def Value.typeName : Value → String
  | .bool _ => "boolean"
  | .int _ => "long"
  | .str _ => "string"
  | .entity _ => "entity"
  | .set _ => "set"
  | .record _ => "variables"
  | .ident _ => "set"
  | .ip _ _ => "ipaddr"

/-- `EntityValue.String()`: the `::`-joined type path followed by the quoted
id.  The Go code indexes the last element; on an empty component list it
would panic, which no modelled code path reaches, so we render it as the
empty-id form. -/
def entityString (parts : List String) : String :=
  String.intercalate "::" parts.dropLast ++ "::\x22" ++ parts.getLastD "" ++ "\x22"

mutual

/-- `OpEqual` dispatch of `engine/value.go`.  Every variant returns a type
mismatch error when the other operand has a different dynamic type, except
`*VarValue`, which compares `false` to everything, and `EntityValue` and
`SetValue`, which themselves return `false` on non-structural mismatch only
after the variant matched.  The `*IpValue` comparison in the source compares
the `cidr` fields by pointer, which distinct allocations never satisfy, so
two ip values compare equal only when both lack a CIDR and render alike
(byte-list equality approximates the rendered-string comparison). -/
def opEqual : Value → Value → Res Bool
  | .bool b1, v2 =>
    match v2 with
    | .bool b2 => .ok (b1 == b2)
    | _ => .err (.typeMismatch "boolean" v2.typeName)
  | .int n1, v2 =>
    match v2 with
    | .int n2 => .ok (n1 == n2)
    | _ => .err (.typeMismatch "long" v2.typeName)
  | .str s1, v2 =>
    match v2 with
    | .str s2 => .ok (s1 == s2)
    | _ => .err (.typeMismatch "string" v2.typeName)
  | .entity p1, v2 =>
    match v2 with
    | .entity p2 => .ok (if p1.length = p2.length then entityCmp p1 p2 else false)
    | _ => .err (.typeMismatch "entity" v2.typeName)
  | .set l1, v2 =>
    match v2 with
    | .set l2 => if l1.length = l2.length then setSubsetLoop l1 l2 else .ok false
    | _ => .err (.typeMismatch "set" v2.typeName)
  | .record _, _ => .ok false
  | .ident s1, v2 =>
    match v2 with
    | .ident s2 => .ok (s1 == s2)
    | _ => .err (.typeMismatch "set" v2.typeName)
  | .ip a1 c1, v2 =>
    match v2 with
    | .ip a2 c2 => .ok (c1.isNone && c2.isNone && a1 == a2)
    | _ => .err (.typeMismatch "ip" v2.typeName)

/-- The componentwise comparison loop of `EntityValue.OpEqual` (run after the
length check). -/
def entityCmp : List String → List String → Bool
  | [], _ => true
  | x :: xs, ys =>
    match ys with
    | [] => true
    | y :: ys2 => if y == x then entityCmp xs ys2 else false

/-- The outer loop of `SetValue.OpEqual`: every element of the first list
must find an equal element in the second. -/
def setSubsetLoop : List Value → List Value → Res Bool
  | [], _ => .ok true
  | a :: rest, l2 =>
    match setFind a l2 with
    | .ok true => setSubsetLoop rest l2
    | .ok false => .ok false
    | .err e => .err e
    | .crash => .crash

/-- The inner loop of `SetValue.OpEqual`: scan for an element equal to `a`,
propagating the first comparison error met before a hit. -/
def setFind : Value → List Value → Res Bool
  | _, [] => .ok false
  | a, b :: rest =>
    match opEqual a b with
    | .ok true => .ok true
    | .ok false => setFind a rest
    | .err e => .err e
    | .crash => .crash

end

/-- The `Store` interface of `engine/store.go`: attribute lookup and
transitive parent lookup.  `Get` may return a Go nil value together with a
nil error (as `EmptyStore.Get` does), modelled by `Option Value`. -/
structure Store where
  get : List String → String → Res (Option Value)
  getParents : List String → Res (List (List String))

/-- `schema.EmptyStore`: `Get` and `GetParents` both return `nil, nil`. -/
def emptyStore : Store where
  get _ _ := .ok none
  getParents _ := .ok []

/-- Collects the rendered strings of a set operand of `in`, erroring at the
first non-entity element. -/
def entityTargetsLoop : List Value → Res (List String)
  | [] => .ok []
  | .entity rv :: rest =>
    match entityTargetsLoop rest with
    | .ok ts => .ok (entityString rv :: ts)
    | other => other
  | v :: _ => .err (.typeMismatch "entity" v.typeName)

/-- The target-collection phase of `EntityValue.OpIn`: build the set of
rendered strings from an entity right operand or a set of entities,
rejecting any other shape. -/
def entityTargets : Value → Res (List String)
  | .entity rv => .ok [entityString rv]
  | .set items => entityTargetsLoop items
  | v => .err (.typeMismatch "entity or set" v.typeName)

/-- `EntityValue.OpIn`: fetch the transitive parents of the left entity from
the store, then report whether any of them renders equal to the right entity
or to an element of the right set. -/
def opIn (l : List String) (r : Value) (store : Store) : Res Bool :=
  match store.getParents l with
  | .err e => .err e
  | .crash => .crash
  | .ok parents =>
    match entityTargets r with
    | .err e => .err e
    | .crash => .crash
    | .ok ts => .ok (parents.any fun p => ts.contains (entityString p))

/-- The trailing-empty-id strip of `EntityValue.OpIs`: an `is` right operand
is an entity literal whose final component (the id) is empty and is dropped
before comparison. -/
def stripTrailingEmpty (rl : List String) : List String :=
  if rl.getLastD "" = "" then rl.dropLast else rl

/-- The comparison loop of `EntityValue.OpIs`: each remaining right component
must exist in the left component list at the same index. -/
def isCmpLoop : List String → List String → Bool
  | [], _ => true
  | _ :: _, [] => false
  | p :: ps, x :: xs => p == x && isCmpLoop ps xs

/-- `EntityValue.OpIs`.  The source indexes `rval[len(rval)-1]`, so an empty
right entity panics; otherwise a trailing empty id is stripped and the
remaining components are compared positionally against the left entity's
full component list (type path components followed by the id). -/
def opIs (l : List String) (r : Value) : Res Bool :=
  match r with
  | .entity rl =>
    match rl with
    | [] => .crash
    | _ :: _ => .ok (isCmpLoop (stripTrailingEmpty rl) l)
  | _ => .err (.typeMismatch "identifier" r.typeName)

/-- `valueAsString`: accepts `StrValue` and `IdentifierValue` keys. -/
def valueAsString : Value → Res String
  | .str s => .ok s
  | .ident s => .ok s
  | v => .err (.evalErr ("expected identifier or string got " ++ v.typeName))

/-- `EntityValue.OpHas`: probe the store; `ErrValueNotFound` means `false`,
any other error is wrapped and propagated, success means `true`. -/
def entityOpHas (l : List String) (key : Value) (store : Store) : Res Bool :=
  (valueAsString key).bind fun s =>
    match store.get l s with
    | .ok _ => .ok true
    | .crash => .crash
    | .err e => if e.isValueNotFound then .ok false else .err (.wrapped "value not found" e)

/-- `EntityValue.OpLookup`: as `OpHas` but returning the value;
`ErrValueNotFound` propagates unwrapped.  A Go nil value with nil error (as
`EmptyStore.Get` produces) flows onward and panics at its first method
dispatch, which we surface as a crash here. -/
def entityOpLookup (l : List String) (key : Value) (store : Store) : Res Value :=
  (valueAsString key).bind fun s =>
    match store.get l s with
    | .ok (some v) => .ok v
    | .ok none => .crash
    | .crash => .crash
    | .err e => if e.isValueNotFound then .err e else .err (.wrapped "value not found" e)

/-- Record lookup, `VarValue.Get` over the canonical association list. -/
def recordGet (pairs : List (String × Value)) (k : String) : Option Value :=
  match pairs with
  | [] => none
  | (k2, v) :: rest => if k2 == k then some v else recordGet rest k

/-- `VarValue.OpHas`: string and identifier keys probe the map; other key
types yield an unsupported-type error. -/
def varOpHas (pairs : List (String × Value)) (key : Value) : Res Bool :=
  match key with
  | .str s => .ok (recordGet pairs s).isSome
  | .ident s => .ok (recordGet pairs s).isSome
  | v => .err (.wrapped ("invalid type: " ++ v.typeName) (.unsupportedType v.typeName))

/-- `VarValue.OpLookup`: as `OpHas` but returning the value, with a
`ErrValueNotFound`-wrapped error for missing keys. -/
def varOpLookup (pairs : List (String × Value)) (key : Value) : Res Value :=
  match key with
  | .str s =>
    match recordGet pairs s with
    | some v => .ok v
    | none => .err (.wrapped ("lookup key not found " ++ s) .valueNotFound)
  | .ident s =>
    match recordGet pairs s with
    | some v => .ok v
    | none => .err (.wrapped ("lookup key not found " ++ s) .valueNotFound)
  | v => .err (.wrapped ("invalid type: " ++ v.typeName) (.unsupportedType v.typeName))

/-- Map insert with overwrite, the canonical model of `m[k] = v` on a Go
string-keyed map. -/
def mapInsert (m : List (String × Value)) (k : String) (v : Value) : List (String × Value) :=
  if m.any (fun kv => kv.1 == k) then
    m.map (fun kv => if kv.1 == k then (k, v) else kv)
  else
    m ++ [(k, v)]

/-- The escape-processing split of `Glob` (glob.go): cut the pattern at
unescaped stars, where a backslash escapes the next character and a trailing
backslash stands for itself. -/
def globSplit : List Char → Bool → List Char → List (List Char) → List (List Char)
  | [], inEscape, accum, parts =>
    parts ++ [if inEscape then accum ++ [Char.ofNat 92] else accum]
  | ch :: rest, inEscape, accum, parts =>
    if inEscape then globSplit rest false (accum ++ [ch]) parts
    else if ch = Char.ofNat 42 then globSplit rest false [] (parts ++ [accum])
    else if ch = Char.ofNat 92 then globSplit rest true accum parts
    else globSplit rest false (accum ++ [ch]) parts

/-- `strings.Index` on character lists: first index of the needle as a
contiguous sublist, or `none`. -/
def idxOfSub (needle : List Char) : List Char → Option Nat
  | [] => if needle.isPrefixOf [] then some 0 else none
  | c :: t =>
    if needle.isPrefixOf (c :: t) then some 0
    else (idxOfSub needle t).map (· + 1)

/-- The middle-parts loop of `Glob`: locate each part in the remaining
subject and trim through it. -/
def globMiddle : List (List Char) → List Char → Option (List Char)
  | [], subj => some subj
  | p :: ps, subj =>
    match idxOfSub p subj with
    | none => none
    | some idx => globMiddle ps (subj.drop (idx + p.length))

/-- `Glob(pattern, subj)` from glob.go: empty pattern matches only the empty
subject, a lone star matches everything, a star-free pattern requires
equality, and otherwise the parts are matched left to right with the leading
and trailing parts anchored unless they are empty (a leading or trailing
star). -/
def glob (pattern subj : String) : Bool :=
  let pl := pattern.toList
  let sl := subj.toList
  if pl = [] then sl == []
  else if pl = [Char.ofNat 42] then true
  else
    match globSplit pl false [] [] with
    | [] => false
    | [p0] => sl == p0
    | p0 :: r1 :: rs =>
      let lastP := (r1 :: rs).getLastD []
      let mids := (r1 :: rs).dropLast
      match idxOfSub p0 sl with
      | some 0 =>
        match globMiddle mids (sl.drop p0.length) with
        | none => false
        | some rem => lastP.isEmpty || lastP.isSuffixOf rem
      | _ => false

/-- The opcodes of `engine/ast.go` (`Operand`). -/
inductive Op where
  | invalid
  | eql | lss | gtr | neq | leq | geq
  | land | lor | opNot
  | add | sub | mul | quo | rem
  | inn | like
  | opIs
  | has | lookup
deriving DecidableEq

/-- Runtime variable sources (`RunVar`). -/
inductive RunVar where
  | invalid | resource | action | principal | context | slotPrincipal | slotResource
deriving DecidableEq

/-- `PolicyEffect`. -/
inductive PolicyEffect where
  | invalid | permit | forbid
deriving DecidableEq

/-- `Condition` kinds of a policy condition block. -/
inductive CondKind where
  | invalid | whenK | unlessK
deriving DecidableEq

/-- The expression nodes of `engine/ast.go` that implement `evalNode`
(`ValueNode`, `UnaryExpr`, `BinaryExpr`, `IfExpr`, `ListExpr`, `Reference`,
`Identifier`, `FunctionCall`, `VariableDef`).  Source positions and the
`AsSet` flag of `ListExpr` (ignored by evaluation) are omitted. -/
inductive Expr where
  | value (v : Value)
  | unary (op : Op) (left : Expr)
  | binary (op : Op) (left right : Expr)
  | ifE (c t e : Expr)
  | list (exprs : List Expr)
  | ref (src : RunVar)
  | identifier (s : String)
  | call (name : String) (self : Option Expr) (args : List Expr)
  | varDef (pairs : List (String × Expr))

/-- Extension functions have signature `func(left EvalValue, args []EvalValue)`;
`left` is Go nil when the call has no receiver. -/
def Func : Type := Option Value → List Value → Res Value

/-- `RuntimeRequest`: the per-request evaluation state.  The template slots
are nil `NamedType` values unless filled; a reference to an unfilled slot
yields a Go nil interface whose first method dispatch panics, surfaced here
at the reference site. -/
structure Req where
  store : Store
  context : List (String × Value)
  principal : List String
  action : List String
  resource : List String
  principalSlot : Option Value := none
  resourceSlot : Option Value := none

/-- `asBool`: the result must be a `BoolValue`. -/
def asBool : Value → Res Bool
  | .bool b => .ok b
  | v => .err (.evalErr ("expected bool got " ++ v.typeName))

/-- `IntValue.OpAdd`. -/
def intOpAdd (n1 : Int) (r : Value) : Res Value :=
  match r with
  | .int n2 => .ok (.int (n1 + n2))
  | _ => .err (.typeMismatch "long" r.typeName)

/-- `IntValue.OpSub`. -/
def intOpSub (n1 : Int) (r : Value) : Res Value :=
  match r with
  | .int n2 => .ok (.int (n1 - n2))
  | _ => .err (.typeMismatch "int" r.typeName)

/-- `IntValue.OpMul`. -/
def intOpMul (n1 : Int) (r : Value) : Res Value :=
  match r with
  | .int n2 => .ok (.int (n1 * n2))
  | _ => .err (.typeMismatch "int" r.typeName)

/-- `IntValue.OpQuo`: the source computes `v1 / v2` with no zero check, so a
zero divisor is a Go runtime panic (integer divide by zero), not a returned
error.  Go division truncates toward zero (`Int.tdiv`).  The mismatch message
in the source says "expected boolean"; the kind is what matters here. -/
def intOpQuo (n1 : Int) (r : Value) : Res Value :=
  match r with
  | .int n2 => if n2 = 0 then .crash else .ok (.int (Int.tdiv n1 n2))
  | _ => .err (.typeMismatch "boolean" r.typeName)

/-- `IntValue.OpRem`: like `OpQuo`, panics on a zero divisor; Go remainder
takes the sign of the dividend (`Int.tmod`). -/
def intOpRem (n1 : Int) (r : Value) : Res Value :=
  match r with
  | .int n2 => if n2 = 0 then .crash else .ok (.int (Int.tmod n1 n2))
  | _ => .err (.typeMismatch "boolean" r.typeName)

/-- `IntValue.OpLss`. -/
def intOpLss (n1 : Int) (r : Value) : Res Bool :=
  match r with
  | .int n2 => .ok (n1 < n2)
  | _ => .err (.typeMismatch "long" r.typeName)

/-- `IntValue.OpLeq`. -/
def intOpLeq (n1 : Int) (r : Value) : Res Bool :=
  match r with
  | .int n2 => .ok (n1 ≤ n2)
  | _ => .err (.typeMismatch "long" r.typeName)

/-- `StrValue.OpLike`: the right operand is the glob pattern, the receiver is
the subject. -/
def strOpLike (s : String) (r : Value) : Res Bool :=
  match r with
  | .str pat => .ok (glob pat s)
  | _ => .err (.typeMismatch "string" r.typeName)

/-- The non-logical arms of the `BinaryExpr.evalNode` switch, reached with
both operands already evaluated.  Only `IntValue` implements `MathType` and
`ComparisonType`, only `EntityValue` implements `IsType`, `InType` and (with
`*VarValue`) `VariableType`, and only `StrValue` implements `LikeType`;
anything else is the corresponding "not supported" eval error.  `Geq` and
`Gtr` are evaluated by swapping the operands. -/
def applyBinop (store : Store) (op : Op) (left right : Value) : Res Value :=
  match op with
  | .eql | .neq =>
    match opEqual left right with
    | .ok b => .ok (.bool (if op = .neq then !b else b))
    | .err e => .err e
    | .crash => .crash
  | .add | .sub | .mul | .quo | .rem =>
    match left with
    | .int n1 =>
      match op with
      | .add => intOpAdd n1 right
      | .sub => intOpSub n1 right
      | .mul => intOpMul n1 right
      | .quo => intOpQuo n1 right
      | _ => intOpRem n1 right
    | _ => .err (.evalErr ("type error: not supported " ++ left.typeName))
  | .lss =>
    match left with
    | .int n1 => (intOpLss n1 right).bind fun b => .ok (.bool b)
    | _ => .err (.evalErr ("type error: not supported " ++ left.typeName))
  | .leq =>
    match left with
    | .int n1 => (intOpLeq n1 right).bind fun b => .ok (.bool b)
    | _ => .err (.evalErr ("type error: not supported " ++ left.typeName))
  | .geq =>
    match right with
    | .int n2 => (intOpLeq n2 left).bind fun b => .ok (.bool b)
    | _ => .err (.evalErr ("type error: not supported " ++ left.typeName))
  | .gtr =>
    match right with
    | .int n2 => (intOpLss n2 left).bind fun b => .ok (.bool b)
    | _ => .err (.evalErr ("type error: not supported " ++ left.typeName))
  | .opIs =>
    match left with
    | .entity p => (opIs p right).bind fun b => .ok (.bool b)
    | _ => .err (.evalErr ("type error: not supported " ++ left.typeName))
  | .inn =>
    match left with
    | .entity p => (opIn p right store).bind fun b => .ok (.bool b)
    | _ => .err (.evalErr ("type error: not supported " ++ left.typeName))
  | .like =>
    match left with
    | .str s => (strOpLike s right).bind fun b => .ok (.bool b)
    | _ => .err (.evalErr ("type error: not supported " ++ left.typeName))
  | .has =>
    match left with
    | .entity p => (entityOpHas p right store).bind fun b => .ok (.bool b)
    | .record prs => (varOpHas prs right).bind fun b => .ok (.bool b)
    | _ => .err (.evalErr ("type error: lookup not supported " ++ left.typeName))
  | .lookup =>
    match left with
    | .entity p => entityOpLookup p right store
    | .record prs => varOpLookup prs right
    | _ => .err (.evalErr ("type error: lookup not supported " ++ left.typeName))
  | _ => .err (.evalErr "Unexpected binary op")

/-- Go interface-key equality, as used by the `map[NamedType]bool` sets of
the `containsAll`/`containsAny` builtins: equal dynamic type and equal
comparable value.  Slice-backed variants (`EntityValue`, `SetValue`) are not
hashable and can never be map keys (insertion panics); pointer-backed
variants (`*VarValue`, `*IpValue`) compare by pointer identity, which
distinct allocations never satisfy, so they are `false` here. -/
def goKeyEq : Value → Value → Bool
  | .bool b1, .bool b2 => b1 == b2
  | .int n1, .int n2 => n1 == n2
  | .str s1, .str s2 => s1 == s2
  | .ident s1, .ident s2 => s1 == s2
  | _, _ => false

/-- Whether a value may be a Go map key without panicking: slice-backed
variants (`EntityValue`, `SetValue`) are unhashable. -/
def goHashable : Value → Bool
  | .entity _ => false
  | .set _ => false
  | _ => true

/-- Insertion of the elements of a list into a Go map keyed by the values
(`looking[item] = true`): later duplicates under interface equality are
absorbed, and an unhashable element is a runtime panic. -/
def goKeySet : List Value → Res (List Value)
  | [] => .ok []
  | v :: rest =>
    if goHashable v then
      match goKeySet rest with
      | .ok ks => .ok (if ks.any (goKeyEq · v) then ks else ks ++ [v])
      | other => other
    else .crash

/-- The comparison the set builtins make between elements: `OpEqual` with
the error ignored (`found, _ := item.OpEqual(look)`). -/
def opEqualB (a b : Value) : Bool :=
  match opEqual a b with
  | .ok true => true
  | _ => false

/-- The outer loop of the `containsAll` builtin: for each element of the
receiver, delete it from the `looking` key set if it equals some remaining
key, and succeed as soon as the key set is empty.  The deletion in the
source is `delete(looking, item)` (keyed by the receiver element, not the
matched key), modelled with Go interface-key equality. -/
def containsAllLoop : List Value → List Value → Res Value
  | _, [] => .ok (.bool false)
  | looking, item :: rest =>
    let matched := looking.any (opEqualB item)
    let looking2 := if matched then looking.filter (fun k => !(goKeyEq k item)) else looking
    if looking2.isEmpty then .ok (.bool true) else containsAllLoop looking2 rest

/-- The `containsAll` entry of the extension-function table: the receiver
and single argument must be sets; the argument elements become a Go key set
and the receiver elements are scanned against it. -/
def fnContainsAll : Func := fun left args =>
  match args with
  | [arg] =>
    match left with
    | some (.set lval) =>
      match arg with
      | .set rval => (goKeySet rval).bind fun looking => containsAllLoop looking lval
      | _ => .err (.typeMismatch "set argument" arg.typeName)
    | some v => .err (.typeMismatch "set" v.typeName)
    | none => .crash
  | l => .err (.typeMismatch "one argument" (toString l.length))

/-- The `containsAny` entry: after building (and then ignoring) the Go key
set of the argument, report whether any receiver element equals any argument
element. -/
def fnContainsAny : Func := fun left args =>
  match args with
  | [arg] =>
    match left with
    | some (.set lval) =>
      match arg with
      | .set rval =>
        (goKeySet rval).bind fun _ =>
          .ok (.bool (lval.any fun item => rval.any fun look => opEqualB item look))
      | _ => .err (.typeMismatch "set argument" arg.typeName)
    | some v => .err (.typeMismatch "set" v.typeName)
    | none => .crash
  | l => .err (.typeMismatch "one argument" (toString l.length))

/-- The `contains` entry: whether some receiver element equals the argument
(comparison errors ignored). -/
def fnContains : Func := fun left args =>
  match args with
  | [arg] =>
    match left with
    | some (.set lval) => .ok (.bool (lval.any fun item => opEqualB item arg))
    | some v => .err (.typeMismatch "set" v.typeName)
    | none => .crash
  | l => .err (.typeMismatch "one argument" (toString l.length))

/-- `net.IP.To4`: a 4-byte address is already IPv4; a 16-byte address is
IPv4 when it carries the IPv4-in-IPv6 prefix (ten zero bytes then two 0xff
bytes); anything else yields `none`. -/
def ipTo4 (addr : List Nat) : Option (List Nat) :=
  if addr.length = 4 then some addr
  else if addr.length = 16 && addr.take 12 == [0, 0, 0, 0, 0, 0, 0, 0, 0, 0, 255, 255] then
    some (addr.drop 12)
  else none

/-- `asNetIp`: the receiver must be a (non-nil) ip value. -/
def asNetIp : Option Value → Res (List Nat × Option (List Nat × Nat))
  | none => .err (.typeMismatch "ip" "nil")
  | some (.ip addr cidr) => .ok (addr, cidr)
  | some v => .err (.typeMismatch "ip" v.typeName)

/-- The `isIpv4` entry: zero arguments, then the receiver must be an ip
value and the answer is whether `To4` of its address is non-nil. -/
def fnIsIpv4 : Func := fun left args =>
  match args with
  | [] => (asNetIp left).bind fun av => .ok (.bool (ipTo4 av.1).isSome)
  | l => .err (.typeMismatch "no arguments" (toString l.length))

/-- The `isIpv6` entry: zero arguments, then `true` unconditionally; the
receiver check is commented out in the source ("If it parsed, it is v6"). -/
def fnIsIpv6 : Func := fun _ args =>
  match args with
  | [] => .ok (.bool true)
  | l => .err (.typeMismatch "no arguments" (toString l.length))

/-- The extension-function table consulted by `FunctionCall` evaluation.
The `engine` package's own table is referenced from `Eval` but its file is
not among the provided sources; the `core/ast` package's table is, and its
set and ip-predicate entries are embedded here.  The remaining entries
(`ip`, `decimal`, `isLoopback`, `isMulticast`, `isInRange` and the decimal
comparators) parse strings into addresses or IEEE-754 doubles; no claim
depends on them and they are left out of the table. -/
def functionTable : String → Option Func
  | "contains" => some fnContains
  | "containsAll" => some fnContainsAll
  | "containsAny" => some fnContainsAny
  | "isIpv4" => some fnIsIpv4
  | "isIpv6" => some fnIsIpv6
  | _ => none

mutual

/-- The `evalNode` dispatch of the engine evaluator over expression nodes.
The binary case evaluates the left operand, then the right operand eagerly
for every operator except `&&` and `||`; for those it requires a boolean
left operand and then replays the source's short-circuit tests verbatim:
`Lor` with a true left returns the left operand, and the second test
compares against `OpAdd` — not `OpLand` — so it can never fire and a false
`&&` left operand still evaluates the right operand. -/
def evalExpr (req : Req) : Expr → Res Value
  | .value v => .ok v
  | .unary op e =>
    (evalExpr req e).bind fun result =>
      match op with
      | .sub =>
        match result with
        | .int n => .ok (.int (-n))
        | _ => .err (.evalErr "LHS does not support logic ops")
      | .opNot =>
        match result with
        | .bool b => .ok (.bool (!b))
        | _ => .err (.evalErr "LHS does not support logic ops")
      | _ => .err (.evalErr "unknown unary op")
  | .binary op l r =>
    (evalExpr req l).bind fun left =>
      if op = .land ∨ op = .lor then
        match left with
        | .bool lval =>
          if op = .lor ∧ lval = true then .ok left
          else if op = .add ∧ lval = false then .ok left
          else
            (evalExpr req r).bind fun right =>
              match right with
              | .bool rval =>
                .ok (.bool (if op = .land then lval && rval else lval || rval))
              | _ => .err (.typeMismatch "boolean" right.typeName)
        | _ => .err (.evalErr ("type error: not supported " ++ left.typeName))
      else
        (evalExpr req r).bind fun right => applyBinop req.store op left right
  | .ifE c t e =>
    (evalExpr req c).bind fun cond =>
      (asBool cond).bind fun b =>
        if b then evalExpr req t else evalExpr req e
  | .list exprs => (evalList req exprs).bind fun vs => .ok (.set vs)
  | .ref src =>
    match src with
    | .context => .ok (.record req.context)
    | .principal => .ok (.entity req.principal)
    | .action => .ok (.entity req.action)
    | .resource => .ok (.entity req.resource)
    | .slotPrincipal =>
      match req.principalSlot with
      | some v => .ok v
      | none => .crash
    | .slotResource =>
      match req.resourceSlot with
      | some v => .ok v
      | none => .crash
    | .invalid => .err (.evalErr "not implemented")
  | .identifier s => .ok (.ident s)
  | .call name self args =>
    (match self with
     | some s => (evalExpr req s).bind fun v => .ok (some v)
     | none => .ok none).bind fun left =>
      (evalList req args).bind fun vals =>
        match functionTable name with
        | some handler => handler left vals
        | none => .err (.evalErr ("function named " ++ name ++ " not found"))
  | .varDef pairs => (evalPairs req pairs []).bind fun m => .ok (.record m)

/-- Left-to-right evaluation of an expression list (`ListExpr` elements and
call arguments). -/
def evalList (req : Req) : List Expr → Res (List Value)
  | [] => .ok []
  | e :: rest =>
    (evalExpr req e).bind fun v =>
      (evalList req rest).bind fun vs => .ok (v :: vs)

/-- `VariableDef.evalNode`: evaluate each pair and insert into the record
map, later keys overwriting earlier ones. -/
def evalPairs (req : Req) : List (String × Expr) → List (String × Value) → Res (List (String × Value))
  | [], acc => .ok acc
  | (k, e) :: rest, acc =>
    (evalExpr req e).bind fun v => evalPairs req rest (mapInsert acc k v)

end

/-- A `when`/`unless` condition block of a policy. -/
structure PolicyCond where
  condition : CondKind
  expr : Expr

/-- A policy: id, effect, the lowered scope head (`If`), and the condition
blocks.  Annotations and source positions are omitted. -/
structure Policy where
  id : String
  effect : PolicyEffect
  head : Expr
  conditions : List PolicyCond

/-- `Decision`. -/
inductive Decision where
  | deny | allow
deriving DecidableEq

/-- The internal `policyResult` record. -/
structure PolicyResult where
  decision : Decision := .deny
  evaluated : Bool := false
  permit : Bool := false
  forbid : Bool := false
  rulesMatched : List String := []

/-- `PolicyCondition.evalNode`: evaluate the expression, require a boolean,
and negate it for an `unless` block. -/
def policyCondEval (req : Req) (c : PolicyCond) : Res Value :=
  (evalExpr req c.expr).bind fun result =>
    (asBool result).bind fun b =>
      .ok (.bool (if c.condition = .whenK then b else !b))

/-- The condition loop of `Policy.evalNode` in the engine package: every
condition is evaluated (no early exit) and the results are conjoined; each
is passed through `asBool` a second time. -/
def condLoop (req : Req) : List PolicyCond → Bool → Res Bool
  | [], acc => .ok acc
  | c :: rest, acc =>
    (policyCondEval req c).bind fun result =>
      (asBool result).bind fun b =>
        condLoop req rest (acc && b)

/-- `Policy.evalNode`: evaluate the head; a non-true head leaves the policy
unevaluated; otherwise the conditions decide whether the policy applied with
its effect. -/
def policyEval (req : Req) (p : Policy) : Res PolicyResult :=
  (evalExpr req p.head).bind fun r =>
    (asBool r).bind fun v =>
      if !v then .ok {}
      else
        (condLoop req p.conditions true).bind fun evalResult =>
          .ok { evaluated := true,
                forbid := evalResult && p.effect = .forbid,
                permit := evalResult && p.effect = .permit }

/-- The accumulator loop of `PolicyList.evalNode`: per-policy errors are
collected and skipped, unevaluated policies are skipped, and applied
policies or their effects fold into the `allowed`, `forbid` and `matches`
accumulators.  A Go panic inside a policy is not caught and aborts the whole
loop. -/
def plLoop (req : Req) : List Policy → Bool × Bool × List String × List GoError →
    Res (Bool × Bool × List String × List GoError)
  | [], acc => .ok acc
  | p :: rest, (allowed, forbid, ruleIds, elist) =>
    match policyEval req p with
    | .crash => .crash
    | .err e => plLoop req rest (allowed, forbid, ruleIds, elist ++ [e])
    | .ok res =>
      if !res.evaluated then plLoop req rest (allowed, forbid, ruleIds, elist)
      else
        plLoop req rest
          (allowed || res.permit, forbid || res.forbid,
           if res.forbid || res.permit then ruleIds ++ [p.id] else ruleIds,
           elist)

/-- `PolicyList.evalNode`: run the loop, then produce `Allow` exactly when
some permit applied and no forbid applied, carrying the matched ids and the
collected per-policy errors (which the Go code joins into a single returned
error alongside the result). -/
def policyListEval (req : Req) (ps : List Policy) : Res (PolicyResult × List GoError) :=
  (plLoop req ps (false, false, [], [])).bind fun acc =>
    let (allowed, forbid, ruleIds, elist) := acc
    if allowed && !forbid then
      .ok ({ decision := .allow, permit := true, rulesMatched := ruleIds }, elist)
    else
      .ok ({ decision := .deny, forbid := true, rulesMatched := ruleIds }, elist)

/-- The result record of `engine.Eval`. -/
structure EvalResult where
  decision : Decision
  rulesMatched : Bool
  reasons : List String
deriving DecidableEq

/-- `engine.Eval` (engine/interface.go): build the runtime request, run the
policy list, and, when the policy list reported any error, discard the
computed result and return only the joined error; otherwise map the result
onto the public record (`RulesMatched` is the `Evaluated` flag of the
returned record, `Reasons` the matched ids). -/
def Eval (ps : List Policy) (req : Req) : Res EvalResult :=
  match policyListEval req ps with
  | .crash => .crash
  | .err e => .err e
  | .ok (res, elist) =>
    if elist.isEmpty then
      .ok { decision := if res.permit then .allow else .deny,
            rulesMatched := res.evaluated,
            reasons := res.rulesMatched }
    else
      .err (.joined elist)

/-! Specification-side definitions.  These are written from the wording of
the specification, independently of the evaluator's control flow, so that
the claim theorems compare the two. -/

/-- A result that is a successfully returned boolean `true`. -/
def isOkTrue : Res Value → Bool
  | .ok (.bool true) => true
  | _ => false

/-- The specification's notion of an applicable policy: its head and every
one of its (`unless`-adjusted) conditions evaluate to `true`. -/
def appliesB (req : Req) (p : Policy) : Bool :=
  isOkTrue (evalExpr req p.head) &&
    p.conditions.all fun c => isOkTrue (policyCondEval req c)

/-- Whether the engine counted the policy as an applied permit. -/
def permitApplied (req : Req) (p : Policy) : Bool :=
  match policyEval req p with
  | .ok r => r.permit
  | _ => false

/-- Whether the engine counted the policy as an applied forbid. -/
def forbidApplied (req : Req) (p : Policy) : Bool :=
  match policyEval req p with
  | .ok r => r.forbid
  | _ => false

/-- Whether the engine recorded the policy id among the matched rules. -/
def appliedP (req : Req) (p : Policy) : Bool :=
  match policyEval req p with
  | .ok r => r.permit || r.forbid
  | _ => false

/-- The error (if any) that the engine captured for this policy. -/
def policyErr (req : Req) (p : Policy) : Option GoError :=
  match policyEval req p with
  | .err e => some e
  | _ => none

/-- Scalar (non-container, non-extension) value variants: booleans, longs,
strings and entities. -/
def isScalarB : Value → Bool
  | .bool _ => true
  | .int _ => true
  | .str _ => true
  | .entity _ => true
  | _ => false

/-- Discriminates the dynamic variant of a value. -/
def kindIdx : Value → Nat
  | .bool _ => 0
  | .int _ => 1
  | .str _ => 2
  | .entity _ => 3
  | .set _ => 4
  | .record _ => 5
  | .ident _ => 6
  | .ip _ _ => 7

/-- Same dynamic variant. -/
def sameKind (v w : Value) : Bool :=
  kindIdx v == kindIdx w

/-- Structural equality on scalar values, the specification's reading of
`==`: same variant and equal contents. -/
def scalarEq : Value → Value → Bool
  | .bool a, .bool b => a == b
  | .int a, .int b => a == b
  | .str a, .str b => a == b
  | .entity a, .entity b => a == b
  | _, _ => false

/-- All elements of the list are long values. -/
def allInts (l : List Value) : Bool :=
  l.all fun v => match v with | .int _ => true | _ => false

/-! Concrete fixtures used by the claim theorems and witnesses. -/

/-- A request over the empty store with trivial entities and no context. -/
def trivReq : Req where
  store := emptyStore
  context := []
  principal := ["User", "a"]
  action := ["Action", "a"]
  resource := ["R", "a"]

/-- An unconditional `permit(principal, action, resource);`: head `true`,
no conditions. -/
def pAll : Policy where
  id := "p1"
  effect := .permit
  head := .value (.bool true)
  conditions := []

/-- A permit policy whose single `when` condition applies `!` to a long,
which fails with an evaluation error. -/
def pErr : Policy where
  id := "p0"
  effect := .permit
  head := .value (.bool true)
  conditions := [{ condition := .whenK, expr := .unary .opNot (.value (.int 1)) }]

/-- A permit policy whose single `when` condition contains `1 / 0 == 0`. -/
def pDivZero : Policy where
  id := "pz"
  effect := .permit
  head := .value (.bool true)
  conditions :=
    [{ condition := .whenK,
       expr := .binary .eql (.binary .quo (.value (.int 1)) (.value (.int 0)))
                 (.value (.int 0)) }]

/-- The error produced by evaluating `pErr`: `!` on a non-logic operand. -/
def errNotOnInt : GoError := .evalErr "LHS does not support logic ops"

/-- The internal result the policy-list evaluator computes for
`[pErr, pAll]`. -/
def allowRes : PolicyResult where
  decision := .allow
  permit := true
  rulesMatched := ["p1"]

/-- The internal result the policy-list evaluator computes for the empty
policy list. -/
def denyRes : PolicyResult where
  decision := .deny
  forbid := true

/-- A store whose transitive-parent lookup returns exactly the queried
entity, the seed behaviour `schema.EntityStore.GetParents` guarantees for
every key. -/
def reflStore : Store where
  get _ _ := .ok none
  getParents e := .ok [e]

/-- What `net.ParseIP` returns for the literal `127.0.0.1`: the 16-byte
IPv4-in-IPv6 form. -/
def parsed127 : List Nat := [0, 0, 0, 0, 0, 0, 0, 0, 0, 0, 255, 255, 127, 0, 0, 1]

/-- The IPv6 loopback address `::1` as 16 bytes. -/
def loopback6 : List Nat := [0, 0, 0, 0, 0, 0, 0, 0, 0, 0, 0, 0, 0, 0, 0, 1]

/-! Claim theorems. -/

/-- C3 (code bug): the evaluator is meant to short-circuit `false && X`, but
the second short-circuit test compares the operator against `OpAdd` instead
of `OpLand`, so `false && X` still evaluates `X` and an erroring `X` (here
`!1`) fails the whole conjunction; the symmetric `true || X` half does
short-circuit and returns `true` without evaluating `X`. -/
theorem land_no_short_circuit :
    (evalExpr trivReq (.binary .land (.value (.bool false))
        (.unary .opNot (.value (.int 1))))).isErr = true
    ∧ evalExpr trivReq (.binary .lor (.value (.bool true))
        (.unary .opNot (.value (.int 1)))) = .ok (.bool true) :=
  ⟨rfl, rfl⟩

/-- C6 (code bug): `IntValue.OpQuo` and `OpRem` perform Go division with no
zero check, so `1 / 0` is a runtime panic that aborts the whole policy-list
evaluation instead of being captured as a per-policy error; division is
total only for non-zero divisors, where it truncates toward zero. -/
theorem div_by_zero_crashes :
    evalExpr trivReq (.binary .quo (.value (.int 1)) (.value (.int 0))) = .crash
    ∧ policyListEval trivReq [pDivZero, pAll] = .crash
    ∧ evalExpr trivReq (.binary .rem (.value (.int 1)) (.value (.int 0))) = .crash
    ∧ evalExpr trivReq (.binary .quo (.value (.int (-7))) (.value (.int 2)))
        = .ok (.int (-3))
    ∧ (intOpQuo 1 (.str "a")).isErr = true :=
  ⟨rfl, rfl, rfl, rfl, rfl⟩

/-- C10: the `isIpv6` extension method returns `true` for every receiver
without inspecting it (even a string receiver), whereas `isIpv4` requires an
ip receiver and tests its address: `ip("127.0.0.1")` (the IPv4-mapped
16-byte form `net.ParseIP` produces) is `isIpv4` and also `isIpv6`, while
the IPv6 loopback is not `isIpv4`. -/
theorem isIpv6_ignores_receiver (left : Option Value) :
    fnIsIpv6 left [] = .ok (.bool true)
    ∧ fnIsIpv4 (some (.ip parsed127 none)) [] = .ok (.bool true)
    ∧ fnIsIpv6 (some (.ip parsed127 none)) [] = .ok (.bool true)
    ∧ fnIsIpv4 (some (.ip loopback6 none)) [] = .ok (.bool false)
    ∧ fnIsIpv6 (some (.str "not an ip")) [] = .ok (.bool true) :=
  ⟨rfl, rfl, rfl, rfl, rfl⟩

/-- C2 (counterexample): with one erroring policy and one unconditional
permit, the authorization entry point `Eval` does not return a decision at
all; it discards the internally computed result and returns only the joined
error. -/
theorem eval_returns_no_decision_on_policy_error :
    (Eval [pErr, pAll] trivReq).isOk = false :=
  rfl

/-- C4 (counterexample): `1 == "a"` evaluates to a type-mismatch error, not
to `false`. -/
theorem eq_mixed_variants_error :
    evalExpr trivReq (.binary .eql (.value (.int 1)) (.value (.str "a")))
      = .err (.typeMismatch "long" "string") := by
  simp [evalExpr, Res.bind, applyBinop, opEqual, Value.typeName]

/-- C5 (counterexample): under `EmptyStore`, whose `GetParents` returns no
entities, `User::"alice" in User::"alice"` evaluates to `false`, so `in` is
not reflexive regardless of the store. -/
theorem in_reflexivity_fails_empty_store :
    evalExpr trivReq (.binary .inn (.value (.entity ["User", "alice"]))
        (.value (.entity ["User", "alice"]))) = .ok (.bool false) :=
  rfl

/-- C7 (counterexample): the sets `{1, 1}` and `{1, 2}` compare equal (equal
lengths, and every element of the first occurs in the second), yet they are
not mutual subsets: the element `2` of the second has no equal element in
the first. -/
theorem set_eq_not_mutual_subset :
    opEqual (.set [.int 1, .int 1]) (.set [.int 1, .int 2]) = .ok true
    ∧ (([.int 1, .int 2] : List Value).all fun b =>
        ([.int 1, .int 1] : List Value).any fun a => scalarEq a b) = false := by
  refine ⟨?_, rfl⟩
  simp [opEqual, setSubsetLoop, setFind]

/-- C8 (counterexample): `Foo::"x" is Foo::x` (the right operand being the
type path `Foo::x` with empty id) evaluates to `true` because the positional
comparison also consumes the id component of the left entity, although the
left entity's type path `[Foo]` does not start with the right path
`[Foo, x]`. -/
theorem is_matches_id_component :
    opIs ["Foo", "x"] (.entity ["Foo", "x", ""]) = .ok true
    ∧ List.isPrefixOf ["Foo", "x"] ["Foo"] = false :=
  ⟨rfl, rfl⟩

/-- C9 (counterexample): `containsAll` applied to two empty sets returns
`false`, although every element of the empty argument trivially has an equal
element in the receiver. -/
theorem containsAll_empty_sets_false :
    fnContainsAll (some (.set [])) [(.set [])] = .ok (.bool false) :=
  rfl

/-- The positional comparison loop of `OpIs` is the componentwise prefix
test. -/
theorem isCmpLoop_eq_isPrefixOf (ps : List String) :
    ∀ xs : List String, isCmpLoop ps xs = ps.isPrefixOf xs := by
  induction ps with
  | nil => intro xs; simp [isCmpLoop, List.isPrefixOf]
  | cons p ps ih =>
    intro xs
    cases xs with
    | nil => simp [isCmpLoop, List.isPrefixOf]
    | cons x xs => simp [isCmpLoop, List.isPrefixOf, ih]

/-- C8 (amended): for a non-empty right entity literal, `l is r` evaluates
to `true` iff the right operand's components, with the trailing empty id
removed, are a componentwise prefix of the left entity's full component
list — the type path followed by the id, so a right path may also match
into the id slot.  The three concrete examples of the claim hold. -/
theorem is_prefix_semantics (l rl : List String) (h : rl ≠ []) :
    opIs l (.entity rl) = .ok ((stripTrailingEmpty rl).isPrefixOf l)
    ∧ opIs ["Foo", "Bar", "x"] (.entity ["Foo", "Bar", ""]) = .ok true
    ∧ opIs ["Foo", "Bar", "x"] (.entity ["Foo", ""]) = .ok true
    ∧ opIs ["Foo", "x"] (.entity ["Foo", "Bar", ""]) = .ok false := by
  refine ⟨?_, rfl, rfl, rfl⟩
  cases rl with
  | nil => exact absurd rfl h
  | cons a as => simp [opIs, isCmpLoop_eq_isPrefixOf]

/-- Witness for the amended C8 theorem at the first concrete example. -/
theorem is_prefix_semantics_witness :
    opIs ["Foo", "Bar", "x"] (.entity ["Foo", "Bar", ""])
      = .ok ((stripTrailingEmpty ["Foo", "Bar", ""]).isPrefixOf ["Foo", "Bar", "x"]) :=
  (is_prefix_semantics ["Foo", "Bar", "x"] ["Foo", "Bar", ""] (by simp)).1

/-- C5 (amended): `l in r` asks the store for the transitive parents of `l`
and returns whether `r` (an entity) or some element of `r` (a set of
entities) renders equal to one of them; consequently `E in E` is `true`
exactly for stores whose `GetParents` output contains an entity rendering
like `E` — as `EntityStore` guarantees by seeding its traversal with the
queried key — while `EmptyStore` returns no parents and makes `E in E`
`false`. -/
theorem in_semantics (store : Store) (l : List String) (r : Value)
    (ps : List (List String)) (ts : List String)
    (h1 : store.getParents l = .ok ps) (h2 : entityTargets r = .ok ts) :
    opIn l r store = .ok (ps.any fun p => ts.contains (entityString p))
    ∧ (entityString l ∈ ps.map entityString → opIn l (.entity l) store = .ok true)
    ∧ opIn l (.entity l) emptyStore = .ok false := by
  refine ⟨?_, ?_, ?_⟩
  · simp [opIn, h1, h2]
  · intro hmem
    simp only [opIn, h1, entityTargets]
    simp only [List.mem_map] at hmem
    obtain ⟨p, hp, hps⟩ := hmem
    have hany : (ps.any fun q => [entityString l].contains (entityString q)) = true := by
      simp only [List.any_eq_true]
      refine ⟨p, hp, ?_⟩
      simp [hps]
    rw [hany]
  · simp [opIn, emptyStore, entityTargets]

/-- Witness for the amended C5 theorem: a store whose parent lookup returns
the queried entity itself makes `E in E` true. -/
theorem in_semantics_witness :
    opIn ["User", "alice"] (.entity ["User", "alice"]) reflStore
        = .ok (([["User", "alice"]].any fun p =>
            [entityString ["User", "alice"]].contains (entityString p)))
    ∧ opIn ["User", "alice"] (.entity ["User", "alice"]) reflStore = .ok true :=
  ⟨(in_semantics reflStore ["User", "alice"] (.entity ["User", "alice"])
      [["User", "alice"]] [entityString ["User", "alice"]] rfl rfl).1,
   (in_semantics reflStore ["User", "alice"] (.entity ["User", "alice"])
      [["User", "alice"]] [entityString ["User", "alice"]] rfl rfl).2.1 (by simp)⟩

/-- Under the length guard, the componentwise entity comparison is list
equality. -/
theorem entityCmp_eq_beq (p1 : List String) :
    ∀ p2 : List String, p1.length = p2.length → entityCmp p1 p2 = (p1 == p2) := by
  induction p1 with
  | nil =>
    intro p2 hlen
    cases p2 with
    | nil => simp [entityCmp]
    | cons y ys => simp at hlen
  | cons x xs ih =>
    intro p2 hlen
    cases p2 with
    | nil => simp at hlen
    | cons y ys =>
      simp only [List.length_cons, Nat.add_right_cancel_iff] at hlen
      simp only [entityCmp, List.cons_beq_cons]
      by_cases hxy : y = x
      · subst hxy
        simp [ih ys hlen]
      · have h1 : (y == x) = false := by simp [hxy]
        have h2 : (x == y) = false := by
          refine beq_eq_false_iff_ne.mpr ?_
          intro h; exact hxy h.symm
        simp [h1, h2]

/-- `EntityValue.OpEqual` is structural equality of the component lists. -/
theorem entity_opEqual_eq (p1 p2 : List String) :
    opEqual (.entity p1) (.entity p2) = .ok (p1 == p2) := by
  rw [opEqual]
  by_cases hlen : p1.length = p2.length
  · simp [hlen, entityCmp_eq_beq p1 p2 hlen]
  · have : (p1 == p2) = false := by
      refine beq_eq_false_iff_ne.mpr ?_
      intro h; exact hlen (by rw [h])
    simp [hlen, this]

/-- C4 (amended): on scalar operands (booleans, longs, strings, entities),
`l == r` is `true` iff the operands have the same variant and are
structurally equal; but when the variants differ the comparison is a
type-mismatch error, not `false`.  Whenever `==` succeeds, `!=` evaluates to
its negation. -/
theorem eq_scalar_semantics (req : Req) (l r : Value)
    (hl : isScalarB l = true) (hr : isScalarB r = true) :
    (sameKind l r = true → opEqual l r = .ok (scalarEq l r))
    ∧ (sameKind l r = false → (opEqual l r).isErr = true)
    ∧ (∀ b, opEqual l r = .ok b →
        evalExpr req (.binary .eql (.value l) (.value r)) = .ok (.bool b)
        ∧ evalExpr req (.binary .neq (.value l) (.value r)) = .ok (.bool (!b))) := by
  have hmain : (sameKind l r = true → opEqual l r = .ok (scalarEq l r))
      ∧ (sameKind l r = false → (opEqual l r).isErr = true) := by
    cases l <;> cases r <;>
      simp_all [isScalarB, sameKind, kindIdx, scalarEq, opEqual, Res.isErr,
        entity_opEqual_eq]
  refine ⟨hmain.1, hmain.2, ?_⟩
  intro b hb
  constructor
  · simp [evalExpr, Res.bind, applyBinop, hb]
  · simp [evalExpr, Res.bind, applyBinop, hb]

/-- Witness for the amended C4 theorem at `1 == 1` (same variant) and
`1 == true` (different variants). -/
theorem eq_scalar_semantics_witness :
    (opEqual (.int 1) (.int 1) = .ok (scalarEq (.int 1) (.int 1))
      ∧ evalExpr trivReq (.binary .neq (.value (.int 1)) (.value (.int 1)))
          = .ok (.bool (!true)))
    ∧ (opEqual (.int 1) (.bool true)).isErr = true := by
  refine ⟨⟨?_, ?_⟩, ?_⟩
  · exact (eq_scalar_semantics trivReq (.int 1) (.int 1) rfl rfl).1 rfl
  · have h := ((eq_scalar_semantics trivReq (.int 1) (.int 1) rfl rfl).2.2 true
      (by simp [opEqual])).2
    exact h
  · exact (eq_scalar_semantics trivReq (.int 1) (.bool true) rfl rfl).2.1 rfl

/-- Destructuring of an all-longs hypothesis. -/
theorem allInts_cons {v : Value} {rest : List Value} (h : allInts (v :: rest) = true) :
    (∃ n : Int, v = .int n) ∧ allInts rest = true := by
  cases v <;> simp_all [allInts]

/-- On long values the three element comparisons of the set builtins agree:
`OpEqual` with the error ignored, the specification's structural equality,
and Go interface-key equality. -/
theorem int_elem_eqs (m n : Int) :
    opEqualB (.int m) (.int n) = (m == n)
    ∧ scalarEq (.int m) (.int n) = (m == n)
    ∧ goKeyEq (.int n) (.int m) = (n == m) := by
  refine ⟨?_, rfl, rfl⟩
  rw [opEqualB, opEqual]
  by_cases h : m = n <;> simp [h]

/-- `setFind` over a list of longs is the any-equal scan. -/
theorem setFind_int (n : Int) :
    ∀ B : List Value, allInts B = true →
      setFind (.int n) B = .ok (B.any fun b => scalarEq (.int n) b) := by
  intro B
  induction B with
  | nil => intro _; rw [setFind]; rfl
  | cons b rest ih =>
    intro hB
    obtain ⟨⟨m, rfl⟩, hrest⟩ := allInts_cons hB
    rw [setFind, opEqual]
    by_cases h : n = m
    · simp [h, scalarEq]
    · have : (n == m) = false := by simp [h]
      simp [this, scalarEq, ih hrest]

/-- `setSubsetLoop` over lists of longs is the all-elements-found scan. -/
theorem setSubsetLoop_int :
    ∀ A B : List Value, allInts A = true → allInts B = true →
      setSubsetLoop A B = .ok (A.all fun a => B.any fun b => scalarEq a b) := by
  intro A
  induction A with
  | nil => intro B _ _; rw [setSubsetLoop]; rfl
  | cons a rest ih =>
    intro B hA hB
    obtain ⟨⟨n, rfl⟩, hrest⟩ := allInts_cons hA
    rw [setSubsetLoop, setFind_int n B hB]
    cases hfound : B.any fun b => scalarEq (.int n) b
    · simp [hfound]
    · simp [hfound, ih B hrest hB]

/-- C7 (amended): on sets of longs, `A == B` evaluates to `true` iff the two
lists have equal length and every element of `A` has an equal element in
`B`.  This is weaker than mutual subset inclusion: with repeated elements
the length check does not force every element of `B` to occur in `A`. -/
theorem set_eq_semantics (A B : List Value)
    (hA : allInts A = true) (hB : allInts B = true) :
    opEqual (.set A) (.set B)
      = .ok ((A.length == B.length) && (A.all fun a => B.any fun b => scalarEq a b)) := by
  rw [opEqual]
  by_cases hlen : A.length = B.length
  · simp only [hlen, if_true]
    rw [setSubsetLoop_int A B hA hB]
    simp [hlen]
  · have : (A.length == B.length) = false := by simp [hlen]
    simp [hlen, this]

/-- Witness for the amended C7 theorem at `{1, 2} == {2, 1}`. -/
theorem set_eq_semantics_witness :
    opEqual (.set [.int 1, .int 2]) (.set [.int 2, .int 1])
      = .ok ((([Value.int 1, .int 2] : List Value).length
            == ([Value.int 2, .int 1] : List Value).length)
          && (([Value.int 1, .int 2] : List Value).all fun a =>
              ([Value.int 2, .int 1] : List Value).any fun b => scalarEq a b)) :=
  set_eq_semantics [.int 1, .int 2] [.int 2, .int 1] rfl rfl

/-- Two lists with the same members satisfy the same `all` predicates. -/
theorem all_eq_of_mem_iff {K B : List Value} (hmem : ∀ x, x ∈ K ↔ x ∈ B)
    (q : Value → Bool) : K.all q = B.all q := by
  cases hK : K.all q <;> cases hB : B.all q <;> try rfl
  · rw [List.all_eq_true] at hB
    have : K.all q = true := List.all_eq_true.mpr fun x hx => hB x ((hmem x).mp hx)
    rw [hK] at this
    exact absurd this (by simp)
  · rw [List.all_eq_true] at hK
    have : B.all q = true := List.all_eq_true.mpr fun x hx => hK x ((hmem x).mpr hx)
    rw [hB] at this
    exact absurd this (by simp)

/-- Pointwise-equal predicates give equal `any` scans. -/
theorem any_congr_on {l : List Value} {p q : Value → Bool}
    (h : ∀ x ∈ l, p x = q x) : l.any p = l.any q := by
  induction l with
  | nil => rfl
  | cons a rest ih =>
    simp only [List.any_cons]
    rw [h a (by simp), ih fun x hx => h x (by simp [hx])]

/-- Building the Go key set from a list of longs succeeds and produces a
list of longs with the same members (interface-key equality on longs is
value equality, so deduplication removes only exact duplicates). -/
theorem goKeySet_int :
    ∀ B : List Value, allInts B = true →
      ∃ K, goKeySet B = .ok K ∧ allInts K = true ∧ ∀ x : Value, x ∈ K ↔ x ∈ B := by
  intro B
  induction B with
  | nil => intro _; exact ⟨[], rfl, rfl, by simp⟩
  | cons v rest ih =>
    intro hB
    obtain ⟨⟨n, rfl⟩, hrest⟩ := allInts_cons hB
    obtain ⟨Ks, hKs, hKsInts, hKsMem⟩ := ih hrest
    rw [goKeySet]
    simp only [goHashable, if_true, hKs]
    by_cases hdup : Ks.any (goKeyEq · (.int n)) = true
    · refine ⟨Ks, by simp [hdup], hKsInts, ?_⟩
      obtain ⟨k, hkKs, hkEq⟩ := List.any_eq_true.mp hdup
      have hkInt : ∃ m : Int, k = .int m := by
        have := List.all_eq_true.mp hKsInts k hkKs
        cases k <;> simp_all
      obtain ⟨m, rfl⟩ := hkInt
      have : m = n := by
        have := hkEq
        rw [(int_elem_eqs n m).2.2] at this
        exact beq_iff_eq.mp this
      subst this
      intro x
      rw [hKsMem x]
      constructor
      · intro hx; exact List.mem_cons_of_mem _ hx
      · intro hx
        rcases List.mem_cons.mp hx with h | h
        · rw [h]; exact (hKsMem _).mp hkKs
        · exact h
    · refine ⟨Ks ++ [.int n], by simp [hdup], ?_, ?_⟩
      · simp only [allInts, List.all_append] at hKsInts ⊢
        simp [List.all_eq_true.mp hKsInts, allInts] at *
        simp_all [allInts]
      · intro x
        simp only [List.mem_append, List.mem_singleton, List.mem_cons, hKsMem x]
        tauto

/-- Members of an all-longs list are long values. -/
theorem all_int_shape {K : List Value} (hK : allInts K = true) {k : Value}
    (hk : k ∈ K) : ∃ m : Int, k = .int m := by
  have := List.all_eq_true.mp hK k hk
  cases k <;> simp_all

/-- The structural match against a long value coincides with Go
interface-key equality with the operands swapped. -/
theorem scalarEq_int_comm (m : Int) (k : Value) :
    scalarEq (.int m) k = goKeyEq k (.int m) := by
  cases k <;> simp only [scalarEq, goKeyEq]
  case int j =>
    by_cases h : m = j
    · subst h; rfl
    · rw [beq_eq_false_iff_ne.mpr h, beq_eq_false_iff_ne.mpr (Ne.symm h)]

/-- Checking every element of a list against a disjunction whose first
disjunct matches the key `n` equals checking the residue after filtering out
the keys equal to `n`. -/
theorem all_or_filter_int (n : Int) (K : List Value) (p2 : Value → Bool) :
    (K.all fun k => scalarEq (.int n) k || p2 k)
      = (K.filter fun k => !(goKeyEq k (.int n))).all p2 := by
  induction K with
  | nil => rfl
  | cons k rest ih =>
    simp only [List.all_cons, List.filter_cons, scalarEq_int_comm]
    cases hg : goKeyEq k (.int n)
    · simp [hg, ih]
    · simp [hg, ih]

/-- The `containsAll` scan over lists of longs: `true` iff the receiver is
non-empty and every key has an equal receiver element. -/
theorem containsAllLoop_int :
    ∀ A K : List Value, allInts A = true → allInts K = true →
      containsAllLoop K A
        = .ok (.bool (!A.isEmpty && K.all fun k => A.any fun a => scalarEq a k)) := by
  intro A
  induction A with
  | nil =>
    intro K _ _
    rw [containsAllLoop]
    simp
  | cons a rest ih =>
    intro K hA hK
    obtain ⟨⟨n, rfl⟩, hrest⟩ := allInts_cons hA
    rw [containsAllLoop]
    have hloop2 :
        (if K.any (opEqualB (.int n)) = true then K.filter fun k => !(goKeyEq k (.int n)) else K)
          = K.filter fun k => !(goKeyEq k (.int n)) := by
      cases hmatched : K.any (opEqualB (.int n)) with
      | true => simp
      | false =>
        have hid : (K.filter fun k => !(goKeyEq k (.int n))) = K := by
          apply List.filter_eq_self.mpr
          intro k hk
          obtain ⟨m, rfl⟩ := all_int_shape hK hk
          have hfalse : opEqualB (.int n) (.int m) = false := by
            cases hop : opEqualB (.int n) (.int m)
            · rfl
            · exact absurd (List.any_eq_true.mpr ⟨.int m, hk, hop⟩) (by simp [hmatched])
          rw [(int_elem_eqs n m).1] at hfalse
          simp [goKeyEq, Ne.symm (beq_eq_false_iff_ne.mp hfalse)]
        simp [hid]
    have hRHS : (K.all fun k => ((Value.int n) :: rest).any fun x => scalarEq x k)
        = K.all fun k => scalarEq (.int n) k || rest.any fun x => scalarEq x k := by
      apply congrArg
      rfl
    have hall := all_or_filter_int n K fun k => rest.any fun x => scalarEq x k
    simp only [hloop2]
    simp only [List.isEmpty_cons, Bool.not_false, Bool.true_and, hRHS, hall]
    cases hemp : (K.filter fun k => !(goKeyEq k (.int n))).isEmpty with
    | true =>
      rw [if_pos rfl]
      have hfe : (K.filter fun k => !(goKeyEq k (.int n))) = [] :=
        List.isEmpty_iff.mp hemp
      rw [hfe]
      simp
    | false =>
      rw [if_neg (by simp)]
      have hFint : allInts (K.filter fun k => !(goKeyEq k (.int n))) = true := by
        apply List.all_eq_true.mpr
        intro x hx
        exact List.all_eq_true.mp hK x (List.mem_of_mem_filter hx)
      rw [ih _ hrest hFint]
      cases rest with
      | cons b rbs => simp
      | nil =>
        have hne : (K.filter fun k => !(goKeyEq k (.int n))) ≠ [] := by
          intro h
          rw [h] at hemp
          simp at hemp
        obtain ⟨f0, hf0⟩ := List.exists_mem_of_ne_nil _ hne
        have hfa : ((K.filter fun k => !(goKeyEq k (.int n))).all
            fun k => ([] : List Value).any fun x => scalarEq x k) = false := by
          cases hfa2 : ((K.filter fun k => !(goKeyEq k (.int n))).all
              fun k => ([] : List Value).any fun x => scalarEq x k)
          · rfl
          · have := List.all_eq_true.mp hfa2 f0 hf0
            simp at this
        rw [hfa]
        simp

/-- C9 (amended): on sets of longs, `A.containsAll(B)` evaluates to `true`
iff `A` is non-empty and every element of `B` has an equal element in `A` —
the emptiness test sits inside the scan over `A`, so two empty sets yield
`false` instead of the claimed `true`; `A.containsAny(B)` evaluates to
`true` iff some element of `A` equals some element of `B`, as claimed. -/
theorem contains_builtins_semantics (A B : List Value)
    (hA : allInts A = true) (hB : allInts B = true) :
    fnContainsAll (some (.set A)) [.set B]
      = .ok (.bool (!A.isEmpty && B.all fun b => A.any fun a => scalarEq a b))
    ∧ fnContainsAny (some (.set A)) [.set B]
      = .ok (.bool (A.any fun a => B.any fun b => scalarEq a b)) := by
  obtain ⟨K, hKeq, hKint, hKmem⟩ := goKeySet_int B hB
  constructor
  · show (goKeySet B).bind (fun looking => containsAllLoop looking A) = _
    rw [hKeq]
    show containsAllLoop K A = _
    rw [containsAllLoop_int A K hA hKint]
    have : (K.all fun k => A.any fun a => scalarEq a k)
        = (B.all fun k => A.any fun a => scalarEq a k) :=
      all_eq_of_mem_iff hKmem _
    rw [this]
  · show Res.bind (goKeySet B) (fun _ : List Value =>
        Res.ok (Value.bool (A.any fun item => B.any fun look => opEqualB item look))) = _
    rw [hKeq]
    show Res.ok (Value.bool (A.any fun item => B.any fun look => opEqualB item look)) = _
    have : (A.any fun item => B.any fun look => opEqualB item look)
        = (A.any fun a => B.any fun b => scalarEq a b) := by
      apply any_congr_on
      intro x hx
      obtain ⟨nx, rfl⟩ := all_int_shape hA hx
      apply any_congr_on
      intro y hy
      obtain ⟨ny, rfl⟩ := all_int_shape hB hy
      rw [(int_elem_eqs nx ny).1, (int_elem_eqs nx ny).2.1]
    rw [this]

/-- Witness for the amended C9 theorem at the singleton sets `{1}`. -/
theorem contains_builtins_semantics_witness :
    fnContainsAll (some (.set [.int 1])) [.set [.int 1]]
      = .ok (.bool (!([Value.int 1] : List Value).isEmpty
          && ([Value.int 1] : List Value).all fun b =>
              ([Value.int 1] : List Value).any fun a => scalarEq a b))
    ∧ fnContainsAny (some (.set [.int 1])) [.set [.int 1]]
      = .ok (.bool (([Value.int 1] : List Value).any fun a =>
          ([Value.int 1] : List Value).any fun b => scalarEq a b)) :=
  contains_builtins_semantics [.int 1] [.int 1] rfl rfl

/-- A successful condition loop conjoins the accumulator with every
condition evaluating to true. -/
theorem condLoop_ok (req : Req) :
    ∀ (cs : List PolicyCond) (acc b : Bool), condLoop req cs acc = .ok b →
      b = (acc && cs.all fun c => isOkTrue (policyCondEval req c)) := by
  intro cs
  induction cs with
  | nil =>
    intro acc b h
    rw [condLoop] at h
    cases h
    simp
  | cons c rest ih =>
    intro acc b h
    rw [condLoop] at h
    cases hc : policyCondEval req c with
    | crash => rw [hc] at h; exact absurd h (by simp [Res.bind])
    | err e => rw [hc] at h; exact absurd h (by simp [Res.bind])
    | ok v =>
      rw [hc] at h
      cases v with
      | bool b2 =>
        simp only [Res.bind, asBool] at h
        rw [ih (acc && b2) b h]
        simp [isOkTrue, hc, List.all_cons]
        cases b2 <;> simp [Bool.and_assoc]
      | int n => exact absurd h (by simp [Res.bind, asBool])
      | str s => exact absurd h (by simp [Res.bind, asBool])
      | entity p => exact absurd h (by simp [Res.bind, asBool])
      | set l => exact absurd h (by simp [Res.bind, asBool])
      | record l => exact absurd h (by simp [Res.bind, asBool])
      | ident s => exact absurd h (by simp [Res.bind, asBool])
      | ip a cdr => exact absurd h (by simp [Res.bind, asBool])

/-- `isOkTrue` on a returned boolean is that boolean. -/
theorem isOkTrue_ok_bool (b : Bool) : isOkTrue (.ok (.bool b)) = b := by
  cases b <;> rfl

/-- A failed condition loop means some condition did not evaluate to true. -/
theorem condLoop_not_ok (req : Req) :
    ∀ (cs : List PolicyCond) (acc : Bool), (condLoop req cs acc).isOk = false →
      (cs.all fun c => isOkTrue (policyCondEval req c)) = false := by
  intro cs
  induction cs with
  | nil => intro acc h; rw [condLoop] at h; simp [Res.isOk] at h
  | cons c rest ih =>
    intro acc h
    rw [condLoop] at h
    rw [List.all_cons]
    cases hc : policyCondEval req c with
    | crash => simp [isOkTrue]
    | err e => simp [isOkTrue]
    | ok v =>
      rw [hc] at h
      cases v with
      | bool b2 =>
        simp only [Res.bind, asBool] at h
        rw [isOkTrue_ok_bool, ih (acc && b2) h]
        simp
      | int n => simp [isOkTrue]
      | str s => simp [isOkTrue]
      | entity p => simp [isOkTrue]
      | set l => simp [isOkTrue]
      | record l => simp [isOkTrue]
      | ident s => simp [isOkTrue]
      | ip a cdr => simp [isOkTrue]

/-- Policy evaluation either returns a result whose permit and forbid flags
say exactly "the head and all conditions evaluated to true, and the effect
matches", or it fails and the policy is not applicable. -/
theorem policyEval_master (req : Req) (p : Policy) :
    (∃ r, policyEval req p = .ok r
      ∧ r.permit = (appliesB req p && decide (p.effect = .permit))
      ∧ r.forbid = (appliesB req p && decide (p.effect = .forbid))
      ∧ (r.evaluated = false → r.permit = false ∧ r.forbid = false))
    ∨ ((policyEval req p).isOk = false ∧ appliesB req p = false) := by
  cases hh : evalExpr req p.head with
  | crash => right; simp [policyEval, hh, Res.bind, Res.isOk, appliesB, isOkTrue]
  | err e => right; simp [policyEval, hh, Res.bind, Res.isOk, appliesB, isOkTrue]
  | ok v =>
    cases v with
    | bool b =>
      cases b with
      | false =>
        left
        refine ⟨{}, ?_, ?_, ?_, ?_⟩
        · simp [policyEval, hh, Res.bind, asBool]
        · simp [appliesB, isOkTrue, hh]
        · simp [appliesB, isOkTrue, hh]
        · intro _; exact ⟨rfl, rfl⟩
      | true =>
        cases hc : condLoop req p.conditions true with
        | ok e =>
          left
          have he := condLoop_ok req p.conditions true e hc
          simp only [Bool.true_and] at he
          refine ⟨{ evaluated := true,
                    forbid := e && decide (p.effect = .forbid),
                    permit := e && decide (p.effect = .permit) }, ?_, ?_, ?_, ?_⟩
          · simp [policyEval, hh, Res.bind, asBool, hc]
          · simp only [appliesB, hh, isOkTrue_ok_bool, Bool.true_and]
            rw [he]
          · simp only [appliesB, hh, isOkTrue_ok_bool, Bool.true_and]
            rw [he]
          · intro hev; simp at hev
        | err e0 =>
          right
          constructor
          · simp [policyEval, hh, Res.bind, asBool, hc, Res.isOk]
          · have hall := condLoop_not_ok req p.conditions true (by simp [hc, Res.isOk])
            simp only [appliesB, hh, isOkTrue_ok_bool, Bool.true_and]
            rw [hall]
        | crash =>
          right
          constructor
          · simp [policyEval, hh, Res.bind, asBool, hc, Res.isOk]
          · have hall := condLoop_not_ok req p.conditions true (by simp [hc, Res.isOk])
            simp only [appliesB, hh, isOkTrue_ok_bool, Bool.true_and]
            rw [hall]
    | int n =>
      right; simp [policyEval, hh, Res.bind, asBool, Res.isOk, appliesB, isOkTrue]
    | str s =>
      right; simp [policyEval, hh, Res.bind, asBool, Res.isOk, appliesB, isOkTrue]
    | entity q =>
      right; simp [policyEval, hh, Res.bind, asBool, Res.isOk, appliesB, isOkTrue]
    | set l =>
      right; simp [policyEval, hh, Res.bind, asBool, Res.isOk, appliesB, isOkTrue]
    | record l =>
      right; simp [policyEval, hh, Res.bind, asBool, Res.isOk, appliesB, isOkTrue]
    | ident s =>
      right; simp [policyEval, hh, Res.bind, asBool, Res.isOk, appliesB, isOkTrue]
    | ip a cdr =>
      right; simp [policyEval, hh, Res.bind, asBool, Res.isOk, appliesB, isOkTrue]

/-- The engine's applied-permit test agrees with the specification's
applicability reading. -/
theorem permitApplied_eq (req : Req) (p : Policy) :
    permitApplied req p = (appliesB req p && decide (p.effect = .permit)) := by
  rcases policyEval_master req p with ⟨r, hr, hp, _, _⟩ | ⟨hno, hap⟩
  · simp [permitApplied, hr, hp]
  · cases hpe : policyEval req p with
    | ok r => rw [hpe] at hno; simp [Res.isOk] at hno
    | err e => simp [permitApplied, hpe, hap]
    | crash => simp [permitApplied, hpe, hap]

/-- The engine's applied-forbid test agrees with the specification's
applicability reading. -/
theorem forbidApplied_eq (req : Req) (p : Policy) :
    forbidApplied req p = (appliesB req p && decide (p.effect = .forbid)) := by
  rcases policyEval_master req p with ⟨r, hr, _, hf, _⟩ | ⟨hno, hap⟩
  · simp [forbidApplied, hr, hf]
  · cases hpe : policyEval req p with
    | ok r => rw [hpe] at hno; simp [Res.isOk] at hno
    | err e => simp [forbidApplied, hpe, hap]
    | crash => simp [forbidApplied, hpe, hap]

/-- The engine's matched-rule test agrees with the specification's reading:
applicable with a permit or forbid effect. -/
theorem appliedP_eq (req : Req) (p : Policy) :
    appliedP req p
      = (appliesB req p && (decide (p.effect = .permit) || decide (p.effect = .forbid))) := by
  have h1 : appliedP req p = (permitApplied req p || forbidApplied req p) := by
    cases hpe : policyEval req p <;> simp [appliedP, permitApplied, forbidApplied, hpe]
  rw [h1, permitApplied_eq, forbidApplied_eq, Bool.and_or_distrib_left]

/-- A policy reported unevaluated carries no permit or forbid flag. -/
theorem policyEval_unevaluated (req : Req) (p : Policy) (r : PolicyResult)
    (h : policyEval req p = .ok r) (hev : r.evaluated = false) :
    r.permit = false ∧ r.forbid = false := by
  rcases policyEval_master req p with ⟨r2, hr2, _, _, hshape⟩ | ⟨hno, _⟩
  · rw [h] at hr2
    cases hr2
    exact hshape hev
  · rw [h] at hno
    simp [Res.isOk] at hno

/-- The policy-list accumulator loop folds exactly the applied permits,
applied forbids, matched ids and captured errors of the traversed policies
onto the incoming accumulator. -/
theorem plLoop_spec (req : Req) :
    ∀ (P : List Policy) (a f : Bool) (m : List String) (e : List GoError)
      (acc2 : Bool × Bool × List String × List GoError),
      plLoop req P (a, f, m, e) = .ok acc2 →
      acc2 = (a || P.any (permitApplied req), f || P.any (forbidApplied req),
              m ++ (P.filter (appliedP req)).map Policy.id,
              e ++ P.filterMap (policyErr req)) := by
  intro P
  induction P with
  | nil =>
    intro a f m e acc2 h
    rw [plLoop] at h
    cases h
    simp
  | cons p rest ih =>
    intro a f m e acc2 h
    rw [plLoop] at h
    cases hpe : policyEval req p with
    | crash => rw [hpe] at h; cases h
    | err e0 =>
      rw [hpe] at h
      have := ih a f m (e ++ [e0]) acc2 h
      rw [this]
      have hperm : permitApplied req p = false := by simp [permitApplied, hpe]
      have hforb : forbidApplied req p = false := by simp [forbidApplied, hpe]
      have happ : appliedP req p = false := by simp [appliedP, hpe]
      have herr : policyErr req p = some e0 := by simp [policyErr, hpe]
      simp [List.any_cons, List.filter_cons, List.filterMap_cons,
        hperm, hforb, happ, herr]
    | ok r =>
      rw [hpe] at h
      have h2 : (if (!r.evaluated) = true then plLoop req rest (a, f, m, e)
          else plLoop req rest (a || r.permit, f || r.forbid,
            if (r.forbid || r.permit) = true then m ++ [p.id] else m, e))
          = Res.ok acc2 := h
      have hperm : permitApplied req p = r.permit := by simp [permitApplied, hpe]
      have hforb : forbidApplied req p = r.forbid := by simp [forbidApplied, hpe]
      have happ : appliedP req p = (r.permit || r.forbid) := by simp [appliedP, hpe]
      have herr : policyErr req p = none := by simp [policyErr, hpe]
      cases hev : r.evaluated with
      | false =>
        rw [hev] at h2
        simp only [Bool.not_false, if_true] at h2
        obtain ⟨hp0, hf0⟩ := policyEval_unevaluated req p r hpe hev
        have := ih a f m e acc2 h2
        rw [this]
        simp [List.any_cons, List.filter_cons, List.filterMap_cons,
          hperm, hforb, happ, herr, hp0, hf0]
      | true =>
        rw [hev] at h2
        simp only [Bool.not_true, Bool.false_eq_true, if_false] at h2
        have := ih (a || r.permit) (f || r.forbid)
          (if r.forbid || r.permit then m ++ [p.id] else m) e acc2 h2
        rw [this]
        simp only [List.any_cons, List.filter_cons, List.filterMap_cons,
          hperm, hforb, happ, herr, Prod.mk.injEq]
        refine ⟨by simp [Bool.or_assoc], by simp [Bool.or_assoc], ?_, by trivial⟩
        cases hpf : (r.permit || r.forbid) with
        | false =>
          have hfp : (r.forbid || r.permit) = false := by
            rcases Bool.or_eq_false_iff.mp hpf with ⟨h1, h2⟩
            simp [h1, h2]
          simp [hfp]
        | true =>
          have hfp : (r.forbid || r.permit) = true := by
            rcases Bool.or_eq_true_iff.mp hpf with h1 | h1 <;> simp [h1]
          simp [hfp]

/-- The specification's decision condition matches the engine's two
accumulator scans. -/
theorem decision_condition_iff (req : Req) (P : List Policy) :
    ((∃ p ∈ P, appliesB req p = true ∧ p.effect = .permit)
        ∧ ¬ ∃ p ∈ P, appliesB req p = true ∧ p.effect = .forbid)
      ↔ (P.any (permitApplied req) = true ∧ P.any (forbidApplied req) = false) := by
  constructor
  · rintro ⟨⟨p, hp, hap, heff⟩, hno⟩
    constructor
    · refine List.any_eq_true.mpr ⟨p, hp, ?_⟩
      rw [permitApplied_eq]
      simp [hap, heff]
    · cases hany : P.any (forbidApplied req) with
      | false => rfl
      | true =>
        obtain ⟨q, hq, hfq⟩ := List.any_eq_true.mp hany
        rw [forbidApplied_eq] at hfq
        rw [Bool.and_eq_true] at hfq
        exact absurd ⟨q, hq, hfq.1, of_decide_eq_true hfq.2⟩ hno
  · rintro ⟨hP, hF⟩
    obtain ⟨p, hp, hpp⟩ := List.any_eq_true.mp hP
    rw [permitApplied_eq, Bool.and_eq_true] at hpp
    refine ⟨⟨p, hp, hpp.1, of_decide_eq_true hpp.2⟩, ?_⟩
    rintro ⟨q, hq, haq, heq⟩
    have hfa : forbidApplied req q = true := by
      rw [forbidApplied_eq]
      simp [haq, heq]
    have := List.any_eq_true.mpr ⟨q, hq, hfa⟩
    rw [hF] at this
    exact absurd this (by simp)

/-- C1: the decision of a policy-list evaluation is `Allow` iff some permit
policy is applicable (head and all conditions evaluate to `true`) and no
forbid policy is, and `Deny` otherwise; the matched rule ids are exactly the
ids of the applicable permit-or-forbid policies in order; when no policy
errored, `Eval` surfaces that decision and those ids as the reasons; and the
empty policy list yields `Deny` with no reasons. -/
theorem authorize_decision (P : List Policy) (req : Req)
    (res : PolicyResult) (elist : List GoError)
    (h : policyListEval req P = .ok (res, elist)) :
    ((res.decision = .allow) ↔
      ((∃ p ∈ P, appliesB req p = true ∧ p.effect = .permit)
        ∧ ¬ ∃ p ∈ P, appliesB req p = true ∧ p.effect = .forbid))
    ∧ res.rulesMatched
        = (P.filter fun p => appliesB req p
            && (decide (p.effect = .permit) || decide (p.effect = .forbid))).map Policy.id
    ∧ (elist.isEmpty = true → Eval P req
        = .ok { decision := res.decision, rulesMatched := res.evaluated,
                reasons := res.rulesMatched })
    ∧ Eval [] req = .ok { decision := .deny, rulesMatched := false, reasons := [] } := by
  have hPL := h
  simp only [policyListEval] at h
  cases hloop : plLoop req P (false, false, [], []) with
  | crash => rw [hloop] at h; exact absurd h (by simp [Res.bind])
  | err e0 => rw [hloop] at h; exact absurd h (by simp [Res.bind])
  | ok acc =>
    have hacc := plLoop_spec req P false false [] [] acc hloop
    simp only [Bool.false_or, List.nil_append] at hacc
    subst hacc
    rw [hloop] at h
    simp only [Res.bind] at h
    have hfilter : (P.filter (appliedP req))
        = P.filter fun p => appliesB req p
            && (decide (p.effect = .permit) || decide (p.effect = .forbid)) := by
      apply List.filter_congr
      intro p _
      exact appliedP_eq req p
    have hEmptyEval : Eval ([] : List Policy) req
        = .ok { decision := .deny, rulesMatched := false, reasons := [] } := rfl
    by_cases hcond :
        (P.any (permitApplied req) && !P.any (forbidApplied req)) = true
    · rw [if_pos hcond] at h
      simp only [Res.ok.injEq, Prod.mk.injEq] at h
      obtain ⟨hres, helist⟩ := h
      subst hres helist
      rw [Bool.and_eq_true, Bool.not_eq_true'] at hcond
      refine ⟨?_, by rw [hfilter], ?_, hEmptyEval⟩
      · simp only [decision_condition_iff req P]
        constructor
        · intro _; exact hcond
        · intro _; trivial
      · intro hEl
        simp [Eval, hPL, hEl]
    · rw [if_neg hcond] at h
      simp only [Res.ok.injEq, Prod.mk.injEq] at h
      obtain ⟨hres, helist⟩ := h
      subst hres helist
      refine ⟨?_, by rw [hfilter], ?_, hEmptyEval⟩
      · simp only [decision_condition_iff req P]
        constructor
        · intro hd; exact absurd hd (by simp)
        · rintro ⟨h1, h2⟩
          exact absurd (by rw [h1, h2]; rfl) hcond
      · intro hEl
        simp [Eval, hPL, hEl]

/-- Witness for the C1 theorem at the empty policy list. -/
theorem authorize_decision_witness :
    ((denyRes.decision = Decision.allow) ↔
      ((∃ p ∈ ([] : List Policy), appliesB trivReq p = true ∧ p.effect = .permit)
        ∧ ¬ ∃ p ∈ ([] : List Policy), appliesB trivReq p = true ∧ p.effect = .forbid))
    ∧ denyRes.rulesMatched
        = (([] : List Policy).filter fun p => appliesB trivReq p
            && (decide (p.effect = .permit) || decide (p.effect = .forbid))).map Policy.id
    ∧ (([] : List GoError).isEmpty = true → Eval [] trivReq
        = .ok { decision := denyRes.decision, rulesMatched := denyRes.evaluated,
                reasons := denyRes.rulesMatched })
    ∧ Eval [] trivReq = .ok { decision := .deny, rulesMatched := false, reasons := [] } :=
  authorize_decision [] trivReq denyRes [] rfl

/-- C2 (amended): when some policies fail with returned (non-panicking)
errors, `PolicyList.evalNode` does keep evaluating the remaining policies,
computes the decision from the ones that succeeded, and carries exactly the
captured per-policy errors alongside — but the authorization entry point
`Eval` then discards that decision and returns only the joined error;
concretely, for one policy with an erroring condition plus an unconditional
permit, the internal result is `Allow` with one captured error, and `Eval`
returns that error instead of a result.  (The claim's divide-by-zero
instance does not even reach this path: it panics, see the C6 theorem.) -/
theorem error_containment_internal (P : List Policy) (req : Req)
    (res : PolicyResult) (elist : List GoError)
    (h : policyListEval req P = .ok (res, elist)) (hne : elist ≠ []) :
    Eval P req = .err (.joined elist)
    ∧ elist = P.filterMap (policyErr req)
    ∧ policyListEval trivReq [pErr, pAll] = .ok (allowRes, [errNotOnInt])
    ∧ (Eval [pErr, pAll] trivReq).isErr = true := by
  refine ⟨?_, ?_, rfl, rfl⟩
  · have hEmpty : elist.isEmpty = false := by
      cases elist with
      | nil => exact absurd rfl hne
      | cons x xs => rfl
    simp [Eval, h, hEmpty]
  · have h2 := h
    simp only [policyListEval] at h2
    cases hloop : plLoop req P (false, false, [], []) with
    | crash => rw [hloop] at h2; exact absurd h2 (by simp [Res.bind])
    | err e0 => rw [hloop] at h2; exact absurd h2 (by simp [Res.bind])
    | ok acc =>
      have hacc := plLoop_spec req P false false [] [] acc hloop
      simp only [Bool.false_or, List.nil_append] at hacc
      subst hacc
      rw [hloop] at h2
      simp only [Res.bind] at h2
      by_cases hcond :
          (P.any (permitApplied req) && !P.any (forbidApplied req)) = true
      · rw [if_pos hcond] at h2
        simp only [Res.ok.injEq, Prod.mk.injEq] at h2
        exact h2.2.symm
      · rw [if_neg hcond] at h2
        simp only [Res.ok.injEq, Prod.mk.injEq] at h2
        exact h2.2.symm

/-- Witness for the amended C2 theorem at the erroring-plus-permit pair. -/
theorem error_containment_internal_witness :
    Eval [pErr, pAll] trivReq = .err (.joined [errNotOnInt])
    ∧ [errNotOnInt] = [pErr, pAll].filterMap (policyErr trivReq)
    ∧ policyListEval trivReq [pErr, pAll] = .ok (allowRes, [errNotOnInt])
    ∧ (Eval [pErr, pAll] trivReq).isErr = true :=
  error_containment_internal [pErr, pAll] trivReq allowRes [errNotOnInt] rfl
    (by simp)

end CedarGo
